import Mathlib

/-! Shallow embedding of the Anvil region-file chunk store from
`crates/valence_anvil/src/lib.rs`: the region header layout, the bounded
region cache with its retention sweep and random forced eviction, and the
`has_chunk` / `read_chunk` operations.

Modelling conventions: file contents are byte lists (`Bytes`), time is an
abstract counter standing for `Instant` (so `last_use.elapsed()` is
`now - last_use`), the random value drawn by `rng.gen_range(0..=len)` in
the eviction path is an explicit argument `draw`, the filesystem is a map
from region coordinates to the outcome of opening `r.x.z.mca`, and the
NBT decoder `valence_nbt::from_binary_slice` together with the two
flate2 decompressors are abstract parameters gathered in `Codecs`.
A `.unwrap()` panic is modelled as the `none` outcome of an `Option`. -/

/-- A sequence of bytes; each entry is a byte value in `[0, 256)`. -/
abbrev Bytes := List Nat

/-- `SECTOR_SIZE` from the source: region files are allocated in 4096-byte
sectors. -/
def SECTOR_SIZE : Nat := 4096

/-- Big-endian 32-bit read from the front of a byte sequence, as done by
`read_u32` of `AsyncReadExt`; `none` models the `UnexpectedEof` failure when
fewer than four bytes remain. -/
def readU32 : Bytes → Option Nat
  | b0 :: b1 :: b2 :: b3 :: _ =>
      some ((b0 % 256) * 16777216 + (b1 % 256) * 65536 + (b2 % 256) * 256 + b3 % 256)
  | _ => none

/-- The relevant cases of `std::io::ErrorKind`. -/
inductive ErrorKind
  | notFound
  | unexpectedEof
  | other
deriving DecidableEq

/-- `ReadChunkError` from the source.  The payloads of the `Io` and `Nbt`
variants are reduced to what the code inspects: for `Io` the kind, for `Nbt`
nothing. -/
inductive ReadChunkError
  | io (kind : ErrorKind)
  | nbt
  | badSectorOffset
  | badChunkSize
  | unknownCompressionScheme (b : Nat)
  | incompleteNbtRead
deriving DecidableEq

/-- `Region` from the source: an open file handle (modelled by the file's
contents), the `last_use` instant, and the cached first 8 KiB of the file. -/
structure Region where
  file : Bytes
  last_use : Nat
  header : Bytes
deriving DecidableEq

/-- The `Regions` map (`BTreeMap<(i32, i32), Region>`), embedded as an
association list; `BTreeMap` iteration order is modelled by list order. -/
abbrev Regions := List ((Int × Int) × Region)

/-- The configuration part of `AnvilWorld` (the `regions` map and the
filesystem root are passed to the operations explicitly). -/
structure AnvilWorld where
  max_open_files : Nat
  region_retention : Nat
deriving DecidableEq

/-- `AnvilChunk` from the source, generic over the decoded NBT tree type. -/
structure AnvilChunk (Tree : Type) where
  data : Tree
  timestamp : Nat
deriving DecidableEq

/-- Outcome of `OpenOptions::new().read(true).write(true).open(path)` for a
region file. -/
inductive OpenResult
  | notFound
  | otherErr
  | ok (contents : Bytes)

/-- The external collaborators of `read_chunk`: the two flate2 decompressors
and `valence_nbt::from_binary_slice`, which returns the decoded tree and the
remaining (unconsumed) bytes of its input slice. -/
structure Codecs (Tree : Type) where
  gz_decode : Bytes → Except ErrorKind Bytes
  zlib_decode : Bytes → Except ErrorKind Bytes
  from_binary_slice : Bytes → Except Unit (Tree × Bytes)

/-- First region-map entry whose key equals `k` (`BTreeMap` lookup). -/
def lookupKey (k : Int × Int) : Regions → Option Region
  | [] => none
  | e :: l => if e.1 = k then some e.2 else lookupKey k l

/-- `regions.remove(&key)`: drop the entries keyed `k`. -/
def removeKey (k : Int × Int) : Regions → Regions
  | [] => []
  | e :: l => if e.1 = k then removeKey k l else e :: removeKey k l

/-- Replace the value stored at key `k` (the occupied-entry update). -/
def updateKey (k : Int × Int) (r : Region) (l : Regions) : Regions :=
  l.map fun e => if e.1 = k then (k, r) else e

/-- Strict lexicographic order on region keys, the `Ord` of `(i32, i32)`. -/
def keyLt (a b : Int × Int) : Prop := a.1 < b.1 ∨ (a.1 = b.1 ∧ a.2 < b.2)

instance (a b : Int × Int) : Decidable (keyLt a b) := by
  unfold keyLt; infer_instance

/-- Key-ordered insertion (the vacant-entry insert of a `BTreeMap`). -/
def insertSorted (k : Int × Int) (r : Region) : Regions → Regions
  | [] => [(k, r)]
  | e :: l => if keyLt k e.1 then (k, r) :: e :: l else e :: insertSorted k r l

/-- The retention sweep
`regions.retain(|_, r| r.last_use.elapsed() < self.region_retention)`. -/
def sweep (now retention : Nat) (l : Regions) : Regions :=
  l.filter fun e => decide (now - e.2.last_use < retention)

/-- The capacity check at the top of `AnvilWorld::region` (source lines
189–212): when at or above `max_open_files`, sweep by retention and, if still
at or above capacity, evict the entry at position `draw`, where `draw` is the
value produced by `rng.gen_range(0..=(regions.len()))`.  `none` models the
panic of `regions.iter().nth(idx).unwrap()` when `nth` yields nothing. -/
def capacityCheck (w : AnvilWorld) (now draw : Nat) (l : Regions) : Option Regions :=
  if w.max_open_files ≤ l.length then
    if w.max_open_files ≤ (sweep now w.region_retention l).length then
      match (sweep now w.region_retention l).get? draw with
      | none => none
      | some e => some (removeKey e.1 (sweep now w.region_retention l))
    else some (sweep now w.region_retention l)
  else some l

/-- The entry part of `AnvilWorld::region` (source lines 214–237): return the
cached handle, or open `r.x.z.mca`, read exactly 8192 header bytes, and insert
the new handle; either way refresh `last_use` to now.  The returned map is the
post-call cache. -/
def loadRegion (fs : Int × Int → OpenResult) (now : Nat) (l : Regions) (k : Int × Int) :
    Regions × Except ReadChunkError (Option Region) :=
  match lookupKey k l with
  | some r =>
      let r' : Region := { r with last_use := now }
      (updateKey k r' l, .ok (some r'))
  | none =>
      match fs k with
      | .notFound => (l, .error (.io .notFound))
      | .otherErr => (l, .error (.io .other))
      | .ok contents =>
          if SECTOR_SIZE * 2 ≤ contents.length then
            let r : Region := ⟨contents, now, contents.take (SECTOR_SIZE * 2)⟩
            (insertSorted k r l, .ok (some r))
          else (l, .error (.io .unexpectedEof))

/-- `AnvilWorld::region`: capacity check, then cache lookup / lazy load.
`none` is the eviction panic; otherwise the post-call map is paired with the
function's `Result<Option<&mut Region>>`. -/
def region (w : AnvilWorld) (fs : Int × Int → OpenResult) (now draw : Nat)
    (l : Regions) (k : Int × Int) :
    Option (Regions × Except ReadChunkError (Option Region)) :=
  match capacityCheck w now draw l with
  | none => none
  | some l1 => some (loadRegion fs now l1 k)

/-- `chunk_pos_to_region`: floor-divide both chunk coordinates by 32. -/
def chunk_pos_to_region (pos : Int × Int) : Int × Int :=
  (pos.1.ediv 32, pos.2.ediv 32)

/-- The in-region chunk index as computed by `read_chunk` (source line 121):
`pos.x.rem_euclid(32) + pos.z.rem_euclid(32) * 32`. -/
def chunk_idx (pos : Int × Int) : Nat :=
  ((pos.1.emod 32) + (pos.2.emod 32) * 32).toNat

/-- The in-region chunk index as computed by `has_chunk` (source line 101):
`pos.x.rem_euclid(32) + pos.x.rem_euclid(32) * 32` — the source uses
`pos.x` in both summands. -/
def has_chunk_idx (pos : Int × Int) : Nat :=
  ((pos.1.emod 32) + (pos.1.emod 32) * 32).toNat

/-- The per-chunk part of `has_chunk` once a region handle is held:
read the location word at the chunk's index and compare it to zero. -/
def has_chunk_data (reg : Region) (pos : Int × Int) : Except ReadChunkError Bool :=
  match readU32 (reg.header.drop (has_chunk_idx pos * 4)) with
  | none => .error (.io .unexpectedEof)
  | some location_bytes => .ok (decide (location_bytes ≠ 0))

/-- `AnvilWorld::has_chunk`: resolve the region (mapping a not-found open
error to `false`), then read the location word. -/
def has_chunk (w : AnvilWorld) (fs : Int × Int → OpenResult) (now draw : Nat)
    (l : Regions) (pos : Int × Int) :
    Option (Regions × Except ReadChunkError Bool) :=
  match region w fs now draw l (chunk_pos_to_region pos) with
  | none => none
  | some (l', res) =>
      some (l',
        match res with
        | .error (.io .notFound) => .ok false
        | .error e => .error e
        | .ok none => .ok false
        | .ok (some reg) => has_chunk_data reg pos)

/-- The compression-scheme dispatch of `read_chunk` (source lines 160–177):
tag 1 is gzip, 2 is zlib, 3 is uncompressed, anything else is
`UnknownCompressionScheme(tag)`. -/
def decompress {Tree : Type} (cs : Codecs Tree) (tag : Nat) (r : Bytes) :
    Except ReadChunkError Bytes :=
  if tag = 1 then
    match cs.gz_decode r with
    | .ok b => .ok b
    | .error k => .error (.io k)
  else if tag = 2 then
    match cs.zlib_decode r with
    | .ok b => .ok b
    | .error k => .error (.io k)
  else if tag = 3 then .ok r
  else .error (.unknownCompressionScheme tag)

/-- The per-chunk part of `read_chunk` once a region handle is held (source
lines 121–185): read the location word and the timestamp, return `none` for a
zero location word, validate the sector offset, seek to
`sector_offset * SECTOR_SIZE`, read the length prefix, validate it against
the sector count, read the payload, strip the compression tag, decompress,
decode, and reject unconsumed trailing bytes. -/
def read_chunk_data {Tree : Type} (cs : Codecs Tree) (reg : Region) (pos : Int × Int) :
    Except ReadChunkError (Option (AnvilChunk Tree)) :=
  match readU32 (reg.header.drop (chunk_idx pos * 4)) with
  | none => .error (.io .unexpectedEof)
  | some location_bytes =>
    match readU32 (reg.header.drop (chunk_idx pos * 4 + SECTOR_SIZE)) with
    | none => .error (.io .unexpectedEof)
    | some timestamp =>
      if location_bytes = 0 then .ok none
      else
        let sector_offset := location_bytes / 256
        let sector_count := location_bytes % 256
        if sector_offset < 2 then .error .badSectorOffset
        else
          match readU32 (reg.file.drop (sector_offset * SECTOR_SIZE)) with
          | none => .error (.io .unexpectedEof)
          | some exact_chunk_size =>
            if sector_count * SECTOR_SIZE < exact_chunk_size then .error .badChunkSize
            else if sector_offset * SECTOR_SIZE + 4 + exact_chunk_size ≤ reg.file.length then
              match (reg.file.drop (sector_offset * SECTOR_SIZE + 4)).take exact_chunk_size with
              | [] => .error (.io .unexpectedEof)
              | tag :: rest =>
                match decompress cs tag rest with
                | .error e => .error e
                | .ok nbt_slice =>
                  match cs.from_binary_slice nbt_slice with
                  | .error _ => .error .nbt
                  | .ok (data, remaining) =>
                    if remaining.isEmpty then .ok (some ⟨data, timestamp⟩)
                    else .error .incompleteNbtRead
            else .error (.io .unexpectedEof)

/-- `AnvilWorld::read_chunk`: resolve the region (mapping a not-found open
error to `None`), then run the per-chunk read. -/
def read_chunk {Tree : Type} (cs : Codecs Tree) (w : AnvilWorld)
    (fs : Int × Int → OpenResult) (now draw : Nat) (l : Regions) (pos : Int × Int) :
    Option (Regions × Except ReadChunkError (Option (AnvilChunk Tree))) :=
  match region w fs now draw l (chunk_pos_to_region pos) with
  | none => none
  | some (l', res) =>
      some (l',
        match res with
        | .error (.io .notFound) => .ok none
        | .error e => .error e
        | .ok none => .ok none
        | .ok (some reg) => read_chunk_data cs reg pos)

/-! Helper lemmas about the region-map operations. -/

theorem removeKey_length_le (k : Int × Int) (l : Regions) :
    (removeKey k l).length ≤ l.length := by
  induction l with
  | nil => simp [removeKey]
  | cons a l ih =>
      by_cases h : a.1 = k <;> simp [removeKey, h] <;> omega

theorem removeKey_length_lt {k : Int × Int} {l : Regions}
    (e : (Int × Int) × Region) (he : e ∈ l) (hk : e.1 = k) :
    (removeKey k l).length < l.length := by
  induction l with
  | nil => cases he
  | cons a l ih =>
      rcases List.mem_cons.mp he with rfl | hmem
      · simp only [removeKey, hk, if_pos, List.length_cons]
        exact Nat.lt_succ_of_le (removeKey_length_le k l)
      · by_cases h : a.1 = k
        · simp only [removeKey, h, if_pos, List.length_cons]
          exact Nat.lt_succ_of_lt (ih hmem)
        · simp only [removeKey, h, if_neg, List.length_cons, ite_false]
          exact Nat.succ_lt_succ (ih hmem)

theorem lookupKey_removeKey (k : Int × Int) (l : Regions) :
    lookupKey k (removeKey k l) = none := by
  induction l with
  | nil => rfl
  | cons e l ih =>
      by_cases h : e.1 = k
      · simp [removeKey, h, ih]
      · simp [removeKey, lookupKey, h, ih]

theorem insertSorted_length (k : Int × Int) (r : Region) (l : Regions) :
    (insertSorted k r l).length = l.length + 1 := by
  induction l with
  | nil => rfl
  | cons e l ih =>
      by_cases h : keyLt k e.1 <;> simp [insertSorted, h, ih]

theorem lookupKey_insertSorted (k : Int × Int) (r : Region) (l : Regions)
    (h : lookupKey k l = none) : lookupKey k (insertSorted k r l) = some r := by
  induction l with
  | nil => simp [insertSorted, lookupKey]
  | cons e l ih =>
      by_cases hlt : keyLt k e.1
      · simp [insertSorted, hlt, lookupKey]
      · have he : ¬ e.1 = k := by
          intro hek
          simp [lookupKey, hek] at h
        simp only [lookupKey, he, if_neg, ite_false] at h
        simp [insertSorted, hlt, lookupKey, he, ih h]

theorem updateKey_length (k : Int × Int) (r : Region) (l : Regions) :
    (updateKey k r l).length = l.length := by
  simp [updateKey]

theorem sweep_length_le (now ret : Nat) (l : Regions) :
    (sweep now ret l).length ≤ l.length := by
  simpa [sweep] using List.length_filter_le _ l

theorem sweep_eq_self_of_active {now ret : Nat} {l : Regions}
    (h : ∀ e ∈ l, now - e.2.last_use < ret) : sweep now ret l = l := by
  unfold sweep
  exact List.filter_eq_self.mpr fun e he => decide_eq_true (h e he)

theorem lookupKey_get? {k : Int × Int} {l : Regions} {r : Region}
    (h : lookupKey k l = some r) :
    ∃ i e, l.get? i = some e ∧ e.1 = k := by
  induction l with
  | nil => cases h
  | cons a l ih =>
      by_cases ha : a.1 = k
      · exact ⟨0, a, rfl, ha⟩
      · simp only [lookupKey, ha, ite_false] at h
        obtain ⟨i, e, hg, hk⟩ := ih h
        exact ⟨i + 1, e, hg, hk⟩

/-! Concrete scenario for the `has_chunk` index computation. -/

/-- A region header whose location word at in-region index 32 is 1 and whose
other location words are 0. -/
def bugHeader : Bytes := List.replicate 128 0 ++ [0, 0, 0, 1] ++ List.replicate 8060 0

/-- A cached handle for region `(0, 0)` carrying `bugHeader`. -/
def bugRegion : Region := ⟨[], 0, bugHeader⟩

/-- A region cache holding only the handle for region `(0, 0)`. -/
def bugRegions : Regions := [((0, 0), bugRegion)]

/-- C1: `has_chunk` is claimed to read the location word at index
`(x mod 32) + (z mod 32) * 32`; the source (line 101) instead computes
`pos.x.rem_euclid(32) + pos.x.rem_euclid(32) * 32`, using `x` twice.  At
`pos = (0, 1)` the chunk's index is 32 and its location word is 1 (chunk
present), yet `has_chunk` reads index 0 (word 0) and returns `false`. -/
theorem has_chunk_uses_x_twice :
    has_chunk ⟨2, 1⟩ (fun _ => .notFound) 0 0 bugRegions (0, 1)
      = some (bugRegions, .ok false)
    ∧ chunk_idx (0, 1) = 32
    ∧ readU32 (bugRegion.header.drop (chunk_idx (0, 1) * 4)) = some 1
    ∧ has_chunk_idx (0, 1) = 0 := by
  refine ⟨rfl, rfl, rfl, rfl⟩

/-- A region cache holding one handle, freshly used at time 0. -/
def oneRegion : Regions := [((0, 0), ⟨[], 0, []⟩)]

/-- C2: the forced-eviction step draws from `0..=(regions.len())` (inclusive)
and feeds the draw to `regions.iter().nth(idx).unwrap()`.  The draw
`regions.len()` is admissible, yet `nth` then yields nothing and the `unwrap`
panics: with one active cached entry, `max_open_files = 1` and draw 1, the
lookup panics (modelled as `none`) instead of evicting an entry. -/
theorem forced_eviction_draw_can_panic :
    oneRegion.length = 1
    ∧ region ⟨1, 5⟩ (fun _ => .notFound) 0 1 oneRegion (1, 1) = none := by
  refine ⟨rfl, rfl⟩

/-! Capacity bound of the region cache. -/

theorem capacityCheck_length_lt {w : AnvilWorld} {now draw : Nat} {l m1 : Regions}
    (hl : l.length ≤ w.max_open_files)
    (h : capacityCheck w now draw l = some m1) : m1.length < w.max_open_files := by
  unfold capacityCheck at h
  by_cases h1 : w.max_open_files ≤ l.length
  · rw [if_pos h1] at h
    by_cases h2 : w.max_open_files ≤ (sweep now w.region_retention l).length
    · rw [if_pos h2] at h
      cases hg : (sweep now w.region_retention l).get? draw with
      | none => rw [hg] at h; cases h
      | some e =>
          rw [hg] at h
          cases h
          have hmem : e ∈ sweep now w.region_retention l := List.get?_mem hg
          have hlt : (removeKey e.1 (sweep now w.region_retention l)).length
              < (sweep now w.region_retention l).length :=
            removeKey_length_lt e hmem rfl
          have hle : (sweep now w.region_retention l).length ≤ l.length :=
            sweep_length_le _ _ _
          omega
    · rw [if_neg h2] at h
      cases h
      omega
  · rw [if_neg h1] at h
    cases h
    omega

theorem loadRegion_length (fs : Int × Int → OpenResult) (now : Nat) (l : Regions)
    (k : Int × Int) : (loadRegion fs now l k).1.length ≤ l.length + 1 := by
  unfold loadRegion
  cases h : lookupKey k l with
  | some r => simp [updateKey_length]
  | none =>
      cases fs k with
      | notFound => simp
      | otherErr => simp
      | ok contents =>
          by_cases hc : SECTOR_SIZE * 2 ≤ contents.length <;>
            simp [hc, insertSorted_length]

/-- C3: with `max_open_files > 0` and a cache currently within its bound,
every return of the cache lookup (`AnvilWorld::region`, the `get_or_load` of
the spec) leaves at most `max_open_files` handles in the map, and the same
bound holds after every `has_chunk` and `read_chunk` call. -/
theorem region_cache_bounded (w : AnvilWorld) (fs : Int × Int → OpenResult)
    (now draw : Nat) (l : Regions)
    (hmax : 0 < w.max_open_files) (hl : l.length ≤ w.max_open_files) :
    (∀ k m res, region w fs now draw l k = some (m, res) →
      m.length ≤ w.max_open_files)
    ∧ (∀ pos m res, has_chunk w fs now draw l pos = some (m, res) →
      m.length ≤ w.max_open_files)
    ∧ (∀ (Tree : Type) (cs : Codecs Tree) pos m res,
      read_chunk cs w fs now draw l pos = some (m, res) →
      m.length ≤ w.max_open_files) := by
  have hreg : ∀ k m res, region w fs now draw l k = some (m, res) →
      m.length ≤ w.max_open_files := by
    intro k m res h
    unfold region at h
    cases hc : capacityCheck w now draw l with
    | none => rw [hc] at h; cases h
    | some l1 =>
        rw [hc] at h
        injection h with h
        have h1 : l1.length < w.max_open_files := capacityCheck_length_lt hl hc
        have h2 : (loadRegion fs now l1 k).1.length ≤ l1.length + 1 :=
          loadRegion_length fs now l1 k
        have h3 : m.length = (loadRegion fs now l1 k).1.length := by rw [h]
        omega
  refine ⟨hreg, ?_, ?_⟩
  · intro pos m res h
    unfold has_chunk at h
    cases hr : region w fs now draw l (chunk_pos_to_region pos) with
    | none => rw [hr] at h; cases h
    | some p =>
        rw [hr] at h
        injection h with h
        have hm : p.1 = m := congrArg Prod.fst h
        exact hm ▸ hreg _ p.1 p.2 (by rw [hr])
  · intro Tree cs pos m res h
    unfold read_chunk at h
    cases hr : region w fs now draw l (chunk_pos_to_region pos) with
    | none => rw [hr] at h; cases h
    | some p =>
        rw [hr] at h
        injection h with h
        have hm : p.1 = m := congrArg Prod.fst h
        exact hm ▸ hreg _ p.1 p.2 (by rw [hr])

/-- Witness for C3 at a concrete input: an empty cache with
`max_open_files = 1`; the lookup loads nothing (file absent) and the bound
holds after the call. -/
theorem region_cache_bounded_witness :
    region ⟨1, 5⟩ (fun _ => OpenResult.notFound) 0 0 [] (0, 0)
      = some ([], .error (.io .notFound))
    ∧ ([] : Regions).length ≤ 1 :=
  ⟨rfl, (region_cache_bounded ⟨1, 5⟩ (fun _ => OpenResult.notFound) 0 0 []
      (by decide) (by decide)).1 (0, 0) [] (.error (.io .notFound)) rfl⟩

/-! The read path once a region handle is held. -/

theorem read_chunk_region_some {Tree : Type} (cs : Codecs Tree) {w : AnvilWorld}
    {fs : Int × Int → OpenResult} {now draw : Nat} {l m : Regions}
    {pos : Int × Int} {reg : Region}
    (h : region w fs now draw l (chunk_pos_to_region pos) = some (m, .ok (some reg))) :
    read_chunk cs w fs now draw l pos = some (m, read_chunk_data cs reg pos) := by
  unfold read_chunk
  rw [h]

theorem read_chunk_data_ok {Tree : Type} (cs : Codecs Tree) (reg : Region)
    (pos : Int × Int) {loc ts L : Nat} {rest : Bytes} {t : Tree}
    (hloc : readU32 (reg.header.drop (chunk_idx pos * 4)) = some loc)
    (hts : readU32 (reg.header.drop (chunk_idx pos * 4 + SECTOR_SIZE)) = some ts)
    (h0 : loc ≠ 0)
    (hoff : 2 ≤ loc / 256)
    (hL : readU32 (reg.file.drop (loc / 256 * SECTOR_SIZE)) = some L)
    (hsize : L ≤ loc % 256 * SECTOR_SIZE)
    (hflen : loc / 256 * SECTOR_SIZE + 4 + L ≤ reg.file.length)
    (hbuf : (reg.file.drop (loc / 256 * SECTOR_SIZE + 4)).take L = 3 :: rest)
    (hdec : cs.from_binary_slice rest = .ok (t, [])) :
    read_chunk_data cs reg pos = .ok (some ⟨t, ts⟩) := by
  unfold read_chunk_data
  rw [hloc, hts]
  simp only [if_neg h0, if_neg (Nat.not_lt.mpr hoff)]
  rw [hL]
  simp only [if_neg (Nat.not_lt.mpr hsize), if_pos hflen]
  rw [hbuf]
  simp only [decompress]
  norm_num
  rw [hdec]
  simp

/-- C4: for a chunk whose header entry is well formed (nonzero location word,
sector offset at least 2, declared length within the reserved sector span,
compression tag 3, payload decoding as exactly one complete tree with nothing
left over), `read_chunk` returns the decoded tree together with the timestamp
read from the parallel table at the same index (header bytes
`SECTOR_SIZE + 4 * index`, here expressed as the word at
`chunk_idx pos * 4 + SECTOR_SIZE` of the 8192-byte header). -/
theorem read_chunk_well_formed {Tree : Type} (cs : Codecs Tree) (w : AnvilWorld)
    (fs : Int × Int → OpenResult) (now draw : Nat) (l m : Regions) (pos : Int × Int)
    (reg : Region) (loc ts L : Nat) (rest : Bytes) (t : Tree)
    (hreg : region w fs now draw l (chunk_pos_to_region pos) = some (m, .ok (some reg)))
    (hloc : readU32 (reg.header.drop (chunk_idx pos * 4)) = some loc)
    (hts : readU32 (reg.header.drop (chunk_idx pos * 4 + SECTOR_SIZE)) = some ts)
    (h0 : loc ≠ 0)
    (hoff : 2 ≤ loc / 256)
    (hL : readU32 (reg.file.drop (loc / 256 * SECTOR_SIZE)) = some L)
    (hsize : L ≤ loc % 256 * SECTOR_SIZE)
    (hflen : loc / 256 * SECTOR_SIZE + 4 + L ≤ reg.file.length)
    (hbuf : (reg.file.drop (loc / 256 * SECTOR_SIZE + 4)).take L = 3 :: rest)
    (hdec : cs.from_binary_slice rest = .ok (t, [])) :
    read_chunk cs w fs now draw l pos = some (m, .ok (some ⟨t, ts⟩)) := by
  rw [read_chunk_region_some cs hreg,
    read_chunk_data_ok cs reg pos hloc hts h0 hoff hL hsize hflen hbuf hdec]

/-! Evaluation helpers for the concrete scenarios.  The byte lists of a
region file are too long to reduce step by step, so the concrete reads are
settled by rewriting with `take`/`drop`/`append`/`replicate` lemmas. -/

theorem readU32_cons (b0 b1 b2 b3 : Nat) (l : Bytes) :
    readU32 (b0 :: b1 :: b2 :: b3 :: l)
      = some ((b0 % 256) * 16777216 + (b1 % 256) * 65536 + (b2 % 256) * 256 + b3 % 256) :=
  rfl

theorem readU32_replicate_zero (m : Nat) :
    readU32 (List.replicate (m + 4) 0) = some 0 := by
  rw [show m + 4 = (m + 3) + 1 by omega, List.replicate_succ,
    show m + 3 = (m + 2) + 1 by omega, List.replicate_succ,
    show m + 2 = (m + 1) + 1 by omega, List.replicate_succ, List.replicate_succ]
  rfl

/-- Loading a region into an empty cache: the capacity path is skipped and the
freshly opened handle is inserted. -/
theorem region_load_empty (w : AnvilWorld) (fs : Int × Int → OpenResult)
    (now draw : Nat) (k : Int × Int) (contents : Bytes)
    (hmax : 0 < w.max_open_files) (hfs : fs k = .ok contents)
    (hlen : SECTOR_SIZE * 2 ≤ contents.length) :
    region w fs now draw [] k
      = some ([(k, ⟨contents, now, contents.take (SECTOR_SIZE * 2)⟩)],
          .ok (some ⟨contents, now, contents.take (SECTOR_SIZE * 2)⟩)) := by
  unfold region capacityCheck loadRegion lookupKey insertSorted
  have h0 : ¬ w.max_open_files ≤ ([] : Regions).length := by
    simp only [List.length_nil]
    omega
  rw [if_neg h0]
  simp [hfs, if_pos hlen]

/-- A cache-hit on a singleton cache below capacity: the handle is returned
with its `last_use` refreshed. -/
theorem region_cached (w : AnvilWorld) (fs : Int × Int → OpenResult)
    (now draw : Nat) (k : Int × Int) (r : Region)
    (hmax : 1 < w.max_open_files) :
    region w fs now draw [(k, r)] k
      = some ([(k, { r with last_use := now })],
          .ok (some { r with last_use := now })) := by
  unfold region capacityCheck loadRegion lookupKey updateKey
  have h0 : ¬ w.max_open_files ≤ ([(k, r)] : Regions).length := by
    simp only [List.length_singleton]
    omega
  rw [if_neg h0]
  simp

/-- Codecs over the trivial tree type whose decoder consumes its whole input. -/
def csUnit : Codecs Unit :=
  ⟨fun _ => .error .other, fun _ => .error .other, fun _ => .ok ((), [])⟩

/-- Location table for the spec's well-formed scenario: word `(offset 2,
count 1)` at index 0, all other words zero. -/
def locTableC4 : Bytes := [0, 0, 2, 1] ++ List.replicate 4092 0

/-- Timestamp table for the well-formed scenario: timestamp 7 at index 0. -/
def tsTableC4 : Bytes := [0, 0, 0, 7] ++ List.replicate 4092 0

/-- The region file of the well-formed scenario: 8192-byte header, then at
sector 2 a payload record of length 50 — compression tag 3 followed by 49
bytes of tree data. -/
def fileC4 : Bytes :=
  (locTableC4 ++ tsTableC4) ++ [0, 0, 0, 50] ++ [3] ++ List.replicate 49 9

/-- The handle obtained by loading `fileC4` at time 0. -/
def regC4 : Region := ⟨fileC4, 0, fileC4.take (SECTOR_SIZE * 2)⟩

/-- The cache after loading `fileC4` into an empty cache. -/
def mapC4 : Regions := [((0, 0), regC4)]

theorem locTableC4_length : locTableC4.length = 4096 := by
  simp only [locTableC4, List.length_append, List.length_replicate, List.length_cons,
    List.length_nil]

theorem headerC4_length : (locTableC4 ++ tsTableC4).length = SECTOR_SIZE * 2 := by
  simp only [locTableC4, tsTableC4, SECTOR_SIZE, List.length_append, List.length_replicate,
    List.length_cons, List.length_nil]

theorem regC4_header : regC4.header = locTableC4 ++ tsTableC4 := by
  show fileC4.take (SECTOR_SIZE * 2) = locTableC4 ++ tsTableC4
  unfold fileC4
  rw [List.append_assoc, List.append_assoc]
  exact List.take_left' headerC4_length

theorem fileC4_drop_8192 : fileC4.drop 8192 = [0, 0, 0, 50] ++ [3] ++ List.replicate 49 9 := by
  unfold fileC4
  rw [List.append_assoc, List.append_assoc,
    List.drop_left' (by rw [headerC4_length]; norm_num [SECTOR_SIZE]),
    ← List.append_assoc]

theorem fileC4_drop_8196 : fileC4.drop 8196 = [3] ++ List.replicate 49 9 := by
  rw [show (8196 : Nat) = 8192 + 4 by norm_num, ← List.drop_drop, fileC4_drop_8192,
    List.append_assoc, List.drop_left' (by norm_num)]

theorem hlocC4 : readU32 (regC4.header.drop (chunk_idx (0, 0) * 4)) = some 513 := by
  rw [regC4_header, show chunk_idx (0, 0) * 4 = 0 by decide, List.drop_zero]
  unfold locTableC4
  rw [List.append_assoc]
  simp only [List.cons_append, List.nil_append, readU32_cons]

theorem htsC4 : readU32 (regC4.header.drop (chunk_idx (0, 0) * 4 + SECTOR_SIZE)) = some 7 := by
  rw [regC4_header, show chunk_idx (0, 0) * 4 + SECTOR_SIZE = 4096 by decide,
    List.drop_left' locTableC4_length]
  unfold tsTableC4
  simp only [List.cons_append, List.nil_append, readU32_cons]

theorem hLC4 : readU32 (regC4.file.drop (513 / 256 * SECTOR_SIZE)) = some 50 := by
  show readU32 (fileC4.drop (513 / 256 * SECTOR_SIZE)) = some 50
  rw [show 513 / 256 * SECTOR_SIZE = 8192 by norm_num [SECTOR_SIZE], fileC4_drop_8192]
  simp only [List.append_assoc, List.cons_append, List.nil_append, readU32_cons]

theorem fileC4_length : fileC4.length = 8246 := by
  simp only [fileC4, locTableC4, tsTableC4, List.length_append, List.length_replicate,
    List.length_cons, List.length_nil]

theorem hbufC4 : (regC4.file.drop (513 / 256 * SECTOR_SIZE + 4)).take 50
    = 3 :: List.replicate 49 9 := by
  show (fileC4.drop (513 / 256 * SECTOR_SIZE + 4)).take 50 = _
  rw [show 513 / 256 * SECTOR_SIZE + 4 = 8196 by norm_num [SECTOR_SIZE], fileC4_drop_8196]
  rw [List.take_append_eq_append_take]
  norm_num

/-- Witness for C4: reading chunk `(0, 0)` from `fileC4` yields the decoded
tree and timestamp 7, the word of the parallel timestamp table at index 0. -/
theorem read_chunk_well_formed_witness :
    read_chunk csUnit ⟨4, 5⟩ (fun _ => .ok fileC4) 0 0 [] (0, 0)
      = some (mapC4, .ok (some ⟨(), 7⟩))
    ∧ readU32 (regC4.header.drop (chunk_idx (0, 0) * 4 + SECTOR_SIZE)) = some 7 :=
  ⟨read_chunk_well_formed csUnit ⟨4, 5⟩ (fun _ => .ok fileC4) 0 0 [] mapC4 (0, 0)
      regC4 513 7 50 (List.replicate 49 9) ()
      (region_load_empty ⟨4, 5⟩ (fun _ => .ok fileC4) 0 0 (chunk_pos_to_region (0, 0))
        fileC4 (by norm_num) rfl (by rw [fileC4_length]; norm_num [SECTOR_SIZE]))
      hlocC4 htsC4 (by norm_num) (by norm_num) hLC4 (by norm_num [SECTOR_SIZE])
      (by show 513 / 256 * SECTOR_SIZE + 4 + 50 ≤ fileC4.length
          rw [fileC4_length]; norm_num [SECTOR_SIZE]) hbufC4 rfl,
    htsC4⟩

/-! The sector-offset validation and the absent-chunk path. -/

theorem read_chunk_data_absent {Tree : Type} (cs : Codecs Tree) (reg : Region)
    (pos : Int × Int) {ts : Nat}
    (hloc : readU32 (reg.header.drop (chunk_idx pos * 4)) = some 0)
    (hts : readU32 (reg.header.drop (chunk_idx pos * 4 + SECTOR_SIZE)) = some ts) :
    read_chunk_data cs reg pos = .ok none := by
  unfold read_chunk_data
  rw [hloc, hts]
  simp

theorem read_chunk_data_badSectorOffset {Tree : Type} (cs : Codecs Tree)
    (reg : Region) (pos : Int × Int) {loc ts : Nat}
    (hloc : readU32 (reg.header.drop (chunk_idx pos * 4)) = some loc)
    (hts : readU32 (reg.header.drop (chunk_idx pos * 4 + SECTOR_SIZE)) = some ts)
    (h0 : loc ≠ 0)
    (hoff : loc / 256 < 2) :
    read_chunk_data cs reg pos = .error .badSectorOffset := by
  unfold read_chunk_data
  rw [hloc, hts]
  simp only [if_neg h0, if_pos hoff]

/-- A cached handle whose header is all zeroes: every location word is 0. -/
def zeroHeaderRegion : Region := ⟨[], 0, List.replicate 8192 0⟩

theorem zeroHeaderRegion_loc :
    readU32 (zeroHeaderRegion.header.drop (chunk_idx (0, 0) * 4)) = some 0 := by
  show readU32 ((List.replicate 8192 0).drop (chunk_idx (0, 0) * 4)) = some 0
  rw [show chunk_idx (0, 0) * 4 = 0 by decide, List.drop_zero,
    show (8192 : Nat) = 8188 + 4 by norm_num]
  exact readU32_replicate_zero 8188

theorem zeroHeaderRegion_ts :
    readU32 (zeroHeaderRegion.header.drop (chunk_idx (0, 0) * 4 + SECTOR_SIZE)) = some 0 := by
  show readU32 ((List.replicate 8192 0).drop (chunk_idx (0, 0) * 4 + SECTOR_SIZE)) = some 0
  rw [show chunk_idx (0, 0) * 4 + SECTOR_SIZE = 4096 by decide, List.drop_replicate,
    show (8192 - 4096 : Nat) = 4092 + 4 by norm_num]
  exact readU32_replicate_zero 4092

/-- C5 counterexample: the location word 0 has a sector-offset field
(top 24 bits) equal to 0 < 2, yet `read_chunk` returns the absent-chunk
result rather than failing with `BadSectorOffset` — the claim's "regardless
of the other fields" fails at the zero location word. -/
theorem bad_sector_offset_zero_word_counterexample :
    readU32 (zeroHeaderRegion.header.drop (chunk_idx (0, 0) * 4)) = some 0
    ∧ (0 : Nat) / 256 < 2
    ∧ read_chunk csUnit ⟨2, 1⟩ (fun _ => .notFound) 0 0
        [((0, 0), zeroHeaderRegion)] (0, 0)
        = some ([((0, 0), zeroHeaderRegion)], .ok none) := by
  refine ⟨zeroHeaderRegion_loc, by norm_num, ?_⟩
  have h := region_cached ⟨2, 1⟩ (fun _ => .notFound) 0 0 (chunk_pos_to_region (0, 0))
    zeroHeaderRegion (by norm_num)
  rw [show ({ zeroHeaderRegion with last_use := 0 } : Region) = zeroHeaderRegion from rfl,
    show chunk_pos_to_region (0, 0) = ((0, 0) : Int × Int) by decide] at h
  rw [read_chunk_region_some csUnit h,
    read_chunk_data_absent csUnit zeroHeaderRegion (0, 0)
      zeroHeaderRegion_loc zeroHeaderRegion_ts]

/-- C5 (amended): given a **nonzero** location word whose sector-offset field
(top 24 bits) is less than 2, `read_chunk` always fails with the
`BadSectorOffset` corruption error, regardless of the other fields. -/
theorem read_chunk_bad_sector_offset {Tree : Type} (cs : Codecs Tree)
    (w : AnvilWorld) (fs : Int × Int → OpenResult) (now draw : Nat)
    (l m : Regions) (pos : Int × Int) (reg : Region) (loc ts : Nat)
    (hreg : region w fs now draw l (chunk_pos_to_region pos) = some (m, .ok (some reg)))
    (hloc : readU32 (reg.header.drop (chunk_idx pos * 4)) = some loc)
    (hts : readU32 (reg.header.drop (chunk_idx pos * 4 + SECTOR_SIZE)) = some ts)
    (h0 : loc ≠ 0)
    (hoff : loc / 256 < 2) :
    read_chunk cs w fs now draw l pos = some (m, .error .badSectorOffset) := by
  rw [read_chunk_region_some cs hreg,
    read_chunk_data_badSectorOffset cs reg pos hloc hts h0 hoff]

/-- A cached handle whose location word at index 0 is 257: sector offset 1
(which is < 2), sector count 1. -/
def offset1Region : Region := ⟨[], 0, [0, 0, 1, 1] ++ List.replicate 8188 0⟩

theorem offset1Region_header :
    offset1Region.header = [0, 0, 1, 1] ++ List.replicate 8188 0 := rfl

theorem offset1Region_loc :
    readU32 (offset1Region.header.drop (chunk_idx (0, 0) * 4)) = some 257 := by
  rw [offset1Region_header, show chunk_idx (0, 0) * 4 = 0 by decide, List.drop_zero]
  simp only [List.cons_append, List.nil_append, readU32_cons]

theorem offset1Region_ts :
    readU32 (offset1Region.header.drop (chunk_idx (0, 0) * 4 + SECTOR_SIZE)) = some 0 := by
  rw [offset1Region_header, show chunk_idx (0, 0) * 4 + SECTOR_SIZE = 4096 by decide,
    List.drop_append_eq_append_drop,
    show List.drop 4096 ([0, 0, 1, 1] : Bytes) = [] from rfl,
    List.nil_append, List.drop_replicate,
    show (8188 - (4096 - List.length ([0, 0, 1, 1] : Bytes)) : Nat) = 4092 + 4 by
      simp only [List.length_cons, List.length_nil]]
  exact readU32_replicate_zero 4092

/-- Witness for C5 (amended) at the nonzero location word 257. -/
theorem read_chunk_bad_sector_offset_witness :
    read_chunk csUnit ⟨2, 1⟩ (fun _ => .notFound) 0 0 [((0, 0), offset1Region)] (0, 0)
      = some ([((0, 0), offset1Region)], .error .badSectorOffset) := by
  have h := region_cached ⟨2, 1⟩ (fun _ => .notFound) 0 0 (chunk_pos_to_region (0, 0))
    offset1Region (by norm_num)
  rw [show ({ offset1Region with last_use := 0 } : Region) = offset1Region from rfl,
    show chunk_pos_to_region (0, 0) = ((0, 0) : Int × Int) by decide] at h
  exact read_chunk_bad_sector_offset csUnit ⟨2, 1⟩ (fun _ => .notFound) 0 0
    [((0, 0), offset1Region)] [((0, 0), offset1Region)] (0, 0) offset1Region 257 0
    h offset1Region_loc offset1Region_ts (by norm_num) (by norm_num)

/-! The chunk-size validation. -/

theorem read_chunk_data_badChunkSize {Tree : Type} (cs : Codecs Tree)
    (reg : Region) (pos : Int × Int) {loc ts L : Nat}
    (hloc : readU32 (reg.header.drop (chunk_idx pos * 4)) = some loc)
    (hts : readU32 (reg.header.drop (chunk_idx pos * 4 + SECTOR_SIZE)) = some ts)
    (h0 : loc ≠ 0)
    (hoff : 2 ≤ loc / 256)
    (hL : readU32 (reg.file.drop (loc / 256 * SECTOR_SIZE)) = some L)
    (hsize : loc % 256 * SECTOR_SIZE < L) :
    read_chunk_data cs reg pos = .error .badChunkSize := by
  unfold read_chunk_data
  rw [hloc, hts]
  simp only [if_neg h0, if_neg (Nat.not_lt.mpr hoff)]
  rw [hL]
  simp only [if_pos hsize]

/-- C6: when the declared payload length strictly exceeds
`sector_count * SECTOR_SIZE`, `read_chunk` fails with `BadChunkSize`; the
conclusion holds for every choice of decompressors and decoder, so the
failure occurs before any payload handling or decompression. -/
theorem read_chunk_bad_chunk_size (w : AnvilWorld) (fs : Int × Int → OpenResult)
    (now draw : Nat) (l m : Regions) (pos : Int × Int) (reg : Region) (loc ts L : Nat)
    (hreg : region w fs now draw l (chunk_pos_to_region pos) = some (m, .ok (some reg)))
    (hloc : readU32 (reg.header.drop (chunk_idx pos * 4)) = some loc)
    (hts : readU32 (reg.header.drop (chunk_idx pos * 4 + SECTOR_SIZE)) = some ts)
    (h0 : loc ≠ 0)
    (hoff : 2 ≤ loc / 256)
    (hL : readU32 (reg.file.drop (loc / 256 * SECTOR_SIZE)) = some L)
    (hsize : loc % 256 * SECTOR_SIZE < L) :
    ∀ (Tree : Type) (cs : Codecs Tree),
      read_chunk cs w fs now draw l pos = some (m, .error .badChunkSize) := by
  intro Tree cs
  rw [read_chunk_region_some cs hreg,
    read_chunk_data_badChunkSize cs reg pos hloc hts h0 hoff hL hsize]

/-- Header with the location word `(offset 2, count 1)` at index 0 and zeroes
elsewhere, shared by the corruption scenarios. -/
theorem hdr21_loc (reg : Region)
    (h : reg.header = [0, 0, 2, 1] ++ List.replicate 8188 0) :
    readU32 (reg.header.drop (chunk_idx (0, 0) * 4)) = some 513 := by
  rw [h, show chunk_idx (0, 0) * 4 = 0 by decide, List.drop_zero]
  simp only [List.cons_append, List.nil_append, readU32_cons]

theorem hdr21_ts (reg : Region)
    (h : reg.header = [0, 0, 2, 1] ++ List.replicate 8188 0) :
    readU32 (reg.header.drop (chunk_idx (0, 0) * 4 + SECTOR_SIZE)) = some 0 := by
  rw [h, show chunk_idx (0, 0) * 4 + SECTOR_SIZE = 4096 by decide,
    List.drop_append_eq_append_drop,
    show List.drop 4096 ([0, 0, 2, 1] : Bytes) = [] from rfl,
    List.nil_append, List.drop_replicate,
    show (8188 - (4096 - List.length ([0, 0, 2, 1] : Bytes)) : Nat) = 4092 + 4 by
      simp only [List.length_cons, List.length_nil]]
  exact readU32_replicate_zero 4092

/-- A cached handle whose file declares payload length 65536 at sector 2,
far above the single reserved sector. -/
def oversizeRegion : Region :=
  ⟨List.replicate 8192 1 ++ [0, 1, 0, 0], 0, [0, 0, 2, 1] ++ List.replicate 8188 0⟩

theorem oversizeRegion_hL :
    readU32 (oversizeRegion.file.drop (513 / 256 * SECTOR_SIZE)) = some 65536 := by
  rw [show oversizeRegion.file = List.replicate 8192 1 ++ [0, 1, 0, 0] from rfl,
    show 513 / 256 * SECTOR_SIZE = 8192 by norm_num [SECTOR_SIZE],
    List.drop_left' (List.length_replicate 8192 1)]
  simp only [readU32_cons]

/-- Witness for C6: an oversize declared length of 65536 against one reserved
sector fails with `BadChunkSize` under any codecs. -/
theorem read_chunk_bad_chunk_size_witness :
    read_chunk csUnit ⟨2, 1⟩ (fun _ => .notFound) 0 0 [((0, 0), oversizeRegion)] (0, 0)
      = some ([((0, 0), oversizeRegion)], .error .badChunkSize) := by
  have h := region_cached ⟨2, 1⟩ (fun _ => .notFound) 0 0 (chunk_pos_to_region (0, 0))
    oversizeRegion (by norm_num)
  rw [show ({ oversizeRegion with last_use := 0 } : Region) = oversizeRegion from rfl,
    show chunk_pos_to_region (0, 0) = ((0, 0) : Int × Int) by decide] at h
  exact read_chunk_bad_chunk_size ⟨2, 1⟩ (fun _ => .notFound) 0 0
    [((0, 0), oversizeRegion)] [((0, 0), oversizeRegion)] (0, 0) oversizeRegion 513 0 65536
    h (hdr21_loc oversizeRegion rfl) (hdr21_ts oversizeRegion rfl)
    (by norm_num) (by norm_num) oversizeRegion_hL (by norm_num [SECTOR_SIZE]) Unit csUnit

/-! The compression-tag dispatch. -/

theorem decompress_unknown {Tree : Type} (cs : Codecs Tree) {tag : Nat} (r : Bytes)
    (h1 : tag ≠ 1) (h2 : tag ≠ 2) (h3 : tag ≠ 3) :
    decompress cs tag r = .error (.unknownCompressionScheme tag) := by
  unfold decompress
  rw [if_neg h1, if_neg h2, if_neg h3]

theorem decompress_known_not_unknown {Tree : Type} (cs : Codecs Tree) {tag : Nat}
    (r : Bytes) (htag : tag = 1 ∨ tag = 2 ∨ tag = 3) (b : Nat) :
    decompress cs tag r ≠ .error (.unknownCompressionScheme b) := by
  unfold decompress
  rcases htag with rfl | rfl | rfl
  · rw [if_pos rfl]
    cases cs.gz_decode r <;> simp
  · rw [if_neg (by norm_num), if_pos rfl]
    cases cs.zlib_decode r <;> simp
  · rw [if_neg (by norm_num), if_neg (by norm_num), if_pos rfl]
    simp

/-- Once all header and size validation passes, `read_chunk_data` is the
compression dispatch followed by the decode step. -/
theorem read_chunk_data_tag {Tree : Type} (cs : Codecs Tree) (reg : Region)
    (pos : Int × Int) {loc ts L tag : Nat} {rest : Bytes}
    (hloc : readU32 (reg.header.drop (chunk_idx pos * 4)) = some loc)
    (hts : readU32 (reg.header.drop (chunk_idx pos * 4 + SECTOR_SIZE)) = some ts)
    (h0 : loc ≠ 0)
    (hoff : 2 ≤ loc / 256)
    (hL : readU32 (reg.file.drop (loc / 256 * SECTOR_SIZE)) = some L)
    (hsize : L ≤ loc % 256 * SECTOR_SIZE)
    (hflen : loc / 256 * SECTOR_SIZE + 4 + L ≤ reg.file.length)
    (hbuf : (reg.file.drop (loc / 256 * SECTOR_SIZE + 4)).take L = tag :: rest) :
    read_chunk_data cs reg pos =
      match decompress cs tag rest with
      | .error e => .error e
      | .ok nbt_slice =>
        match cs.from_binary_slice nbt_slice with
        | .error _ => .error .nbt
        | .ok (data, remaining) =>
          if remaining.isEmpty then .ok (some ⟨data, ts⟩)
          else .error .incompleteNbtRead := by
  unfold read_chunk_data
  rw [hloc, hts]
  simp only [if_neg h0, if_neg (Nat.not_lt.mpr hoff)]
  rw [hL]
  simp only [if_neg (Nat.not_lt.mpr hsize), if_pos hflen]
  rw [hbuf]

/-- C7: a compression tag outside `{1, 2, 3}` makes `read_chunk` fail with
`UnknownCompressionScheme` carrying that very tag, while the tags 1, 2 and 3
are never rejected by this dispatch step. -/
theorem read_chunk_compression_tag {Tree : Type} (cs : Codecs Tree) (w : AnvilWorld)
    (fs : Int × Int → OpenResult) (now draw : Nat) (l m : Regions) (pos : Int × Int)
    (reg : Region) (loc ts L tag : Nat) (rest : Bytes)
    (hreg : region w fs now draw l (chunk_pos_to_region pos) = some (m, .ok (some reg)))
    (hloc : readU32 (reg.header.drop (chunk_idx pos * 4)) = some loc)
    (hts : readU32 (reg.header.drop (chunk_idx pos * 4 + SECTOR_SIZE)) = some ts)
    (h0 : loc ≠ 0)
    (hoff : 2 ≤ loc / 256)
    (hL : readU32 (reg.file.drop (loc / 256 * SECTOR_SIZE)) = some L)
    (hsize : L ≤ loc % 256 * SECTOR_SIZE)
    (hflen : loc / 256 * SECTOR_SIZE + 4 + L ≤ reg.file.length)
    (hbuf : (reg.file.drop (loc / 256 * SECTOR_SIZE + 4)).take L = tag :: rest) :
    ((tag ≠ 1 ∧ tag ≠ 2 ∧ tag ≠ 3) →
      read_chunk cs w fs now draw l pos
        = some (m, .error (.unknownCompressionScheme tag)))
    ∧ ((tag = 1 ∨ tag = 2 ∨ tag = 3) → ∀ b : Nat,
      read_chunk cs w fs now draw l pos
        ≠ some (m, .error (.unknownCompressionScheme b))) := by
  have hlift := read_chunk_region_some cs hreg
  have hbase := read_chunk_data_tag cs reg pos hloc hts h0 hoff hL hsize hflen hbuf
  constructor
  · rintro ⟨h1, h2, h3⟩
    rw [hlift, hbase, decompress_unknown cs rest h1 h2 h3]
  · intro htag b hcontra
    rw [hlift, hbase] at hcontra
    simp only [Option.some.injEq, Prod.mk.injEq] at hcontra
    obtain ⟨-, h2⟩ := hcontra
    cases hd : decompress cs tag rest with
    | error e =>
        simp only [hd] at h2
        have he : e = .unknownCompressionScheme b := by injection h2
        exact decompress_known_not_unknown cs rest htag b (he ▸ hd)
    | ok slice =>
        simp only [hd] at h2
        cases hfb : cs.from_binary_slice slice with
        | error u => simp only [hfb] at h2; simp at h2
        | ok p =>
            obtain ⟨t, rem⟩ := p
            simp only [hfb] at h2
            split at h2 <;> simp_all

/-- A cached handle whose payload record at sector 2 has length 3 and the
unknown compression tag 7. -/
def tagRegion : Region :=
  ⟨List.replicate 8192 1 ++ [0, 0, 0, 3, 7, 1, 2], 0,
    [0, 0, 2, 1] ++ List.replicate 8188 0⟩

theorem tagRegion_hL :
    readU32 (tagRegion.file.drop (513 / 256 * SECTOR_SIZE)) = some 3 := by
  rw [show tagRegion.file = List.replicate 8192 1 ++ [0, 0, 0, 3, 7, 1, 2] from rfl,
    show 513 / 256 * SECTOR_SIZE = 8192 by norm_num [SECTOR_SIZE],
    List.drop_left' (List.length_replicate 8192 1)]
  simp only [readU32_cons]

theorem tagRegion_hflen :
    513 / 256 * SECTOR_SIZE + 4 + 3 ≤ tagRegion.file.length := by
  rw [show tagRegion.file = List.replicate 8192 1 ++ [0, 0, 0, 3, 7, 1, 2] from rfl]
  simp only [List.length_append, List.length_replicate, List.length_cons, List.length_nil,
    SECTOR_SIZE]
  norm_num

theorem tagRegion_hbuf :
    (tagRegion.file.drop (513 / 256 * SECTOR_SIZE + 4)).take 3 = 7 :: [1, 2] := by
  rw [show tagRegion.file = List.replicate 8192 1 ++ [0, 0, 0, 3, 7, 1, 2] from rfl,
    show 513 / 256 * SECTOR_SIZE + 4 = 8192 + 4 by norm_num [SECTOR_SIZE],
    ← List.drop_drop, List.drop_left' (List.length_replicate 8192 1)]
  rfl

/-- Witness for C7: the unknown compression tag 7 is rejected and preserved
in the error. -/
theorem read_chunk_compression_tag_witness :
    read_chunk csUnit ⟨2, 1⟩ (fun _ => .notFound) 0 0 [((0, 0), tagRegion)] (0, 0)
      = some ([((0, 0), tagRegion)], .error (.unknownCompressionScheme 7)) := by
  have h := region_cached ⟨2, 1⟩ (fun _ => .notFound) 0 0 (chunk_pos_to_region (0, 0))
    tagRegion (by norm_num)
  rw [show ({ tagRegion with last_use := 0 } : Region) = tagRegion from rfl,
    show chunk_pos_to_region (0, 0) = ((0, 0) : Int × Int) by decide] at h
  exact (read_chunk_compression_tag csUnit ⟨2, 1⟩ (fun _ => .notFound) 0 0
    [((0, 0), tagRegion)] [((0, 0), tagRegion)] (0, 0) tagRegion 513 0 3 7 [1, 2]
    h (hdr21_loc tagRegion rfl) (hdr21_ts tagRegion rfl)
    (by norm_num) (by norm_num) tagRegion_hL (by norm_num [SECTOR_SIZE])
    tagRegion_hflen tagRegion_hbuf).1 ⟨by norm_num, by norm_num, by norm_num⟩

/-! The trailing-bytes check after the decode. -/

/-- C8: once the payload is decompressed and the decoder succeeds,
`read_chunk` returns a chunk exactly when the decoder consumed the whole
slice; any unconsumed trailing byte turns the result into the
`IncompleteNbtRead` failure. -/
theorem read_chunk_trailing_bytes {Tree : Type} (cs : Codecs Tree) (w : AnvilWorld)
    (fs : Int × Int → OpenResult) (now draw : Nat) (l m : Regions) (pos : Int × Int)
    (reg : Region) (loc ts L tag : Nat) (rest nbt_slice remaining : Bytes) (t : Tree)
    (hreg : region w fs now draw l (chunk_pos_to_region pos) = some (m, .ok (some reg)))
    (hloc : readU32 (reg.header.drop (chunk_idx pos * 4)) = some loc)
    (hts : readU32 (reg.header.drop (chunk_idx pos * 4 + SECTOR_SIZE)) = some ts)
    (h0 : loc ≠ 0)
    (hoff : 2 ≤ loc / 256)
    (hL : readU32 (reg.file.drop (loc / 256 * SECTOR_SIZE)) = some L)
    (hsize : L ≤ loc % 256 * SECTOR_SIZE)
    (hflen : loc / 256 * SECTOR_SIZE + 4 + L ≤ reg.file.length)
    (hbuf : (reg.file.drop (loc / 256 * SECTOR_SIZE + 4)).take L = tag :: rest)
    (hd : decompress cs tag rest = .ok nbt_slice)
    (hfb : cs.from_binary_slice nbt_slice = .ok (t, remaining)) :
    read_chunk cs w fs now draw l pos
      = some (m, if remaining.isEmpty then .ok (some ⟨t, ts⟩)
                 else .error .incompleteNbtRead) := by
  rw [read_chunk_region_some cs hreg,
    read_chunk_data_tag cs reg pos hloc hts h0 hoff hL hsize hflen hbuf]
  simp only [hd, hfb]

/-- Codecs over the trivial tree type whose decoder always leaves the last
bytes of its input unconsumed. -/
def csLeft : Codecs Unit :=
  ⟨fun _ => .error .other, fun _ => .error .other, fun b => .ok ((), b.drop 1)⟩

/-- A cached handle whose payload record at sector 2 has length 3,
compression tag 3 and two tree bytes. -/
def trailRegion : Region :=
  ⟨List.replicate 8192 1 ++ [0, 0, 0, 3, 3, 5, 6], 0,
    [0, 0, 2, 1] ++ List.replicate 8188 0⟩

theorem trailRegion_hL :
    readU32 (trailRegion.file.drop (513 / 256 * SECTOR_SIZE)) = some 3 := by
  rw [show trailRegion.file = List.replicate 8192 1 ++ [0, 0, 0, 3, 3, 5, 6] from rfl,
    show 513 / 256 * SECTOR_SIZE = 8192 by norm_num [SECTOR_SIZE],
    List.drop_left' (List.length_replicate 8192 1)]
  simp only [readU32_cons]

theorem trailRegion_hflen :
    513 / 256 * SECTOR_SIZE + 4 + 3 ≤ trailRegion.file.length := by
  rw [show trailRegion.file = List.replicate 8192 1 ++ [0, 0, 0, 3, 3, 5, 6] from rfl]
  simp only [List.length_append, List.length_replicate, List.length_cons, List.length_nil,
    SECTOR_SIZE]
  norm_num

theorem trailRegion_hbuf :
    (trailRegion.file.drop (513 / 256 * SECTOR_SIZE + 4)).take 3 = 3 :: [5, 6] := by
  rw [show trailRegion.file = List.replicate 8192 1 ++ [0, 0, 0, 3, 3, 5, 6] from rfl,
    show 513 / 256 * SECTOR_SIZE + 4 = 8192 + 4 by norm_num [SECTOR_SIZE],
    ← List.drop_drop, List.drop_left' (List.length_replicate 8192 1)]
  rfl

/-- Witness for C8: the decoder consumes only one of the two payload bytes,
so `read_chunk` fails with `IncompleteNbtRead`. -/
theorem read_chunk_trailing_bytes_witness :
    read_chunk csLeft ⟨2, 1⟩ (fun _ => .notFound) 0 0 [((0, 0), trailRegion)] (0, 0)
      = some ([((0, 0), trailRegion)], .error .incompleteNbtRead) := by
  have h := region_cached ⟨2, 1⟩ (fun _ => .notFound) 0 0 (chunk_pos_to_region (0, 0))
    trailRegion (by norm_num)
  rw [show ({ trailRegion with last_use := 0 } : Region) = trailRegion from rfl,
    show chunk_pos_to_region (0, 0) = ((0, 0) : Int × Int) by decide] at h
  have hmain := read_chunk_trailing_bytes csLeft ⟨2, 1⟩ (fun _ => .notFound) 0 0
    [((0, 0), trailRegion)] [((0, 0), trailRegion)] (0, 0) trailRegion 513 0 3 3
    [5, 6] [5, 6] [6] ()
    h (hdr21_loc trailRegion rfl) (hdr21_ts trailRegion rfl)
    (by norm_num) (by norm_num) trailRegion_hL (by norm_num [SECTOR_SIZE])
    trailRegion_hflen trailRegion_hbuf rfl rfl
  simpa using hmain

/-! The not-found taxonomy of `read_chunk`. -/

theorem loadRegion_notFound {fs : Int × Int → OpenResult} {now : Nat} {l : Regions}
    {k : Int × Int} (h1 : lookupKey k l = none) (h2 : fs k = .notFound) :
    loadRegion fs now l k = (l, .error (.io .notFound)) := by
  unfold loadRegion
  rw [h1, h2]

theorem loadRegion_otherErr {fs : Int × Int → OpenResult} {now : Nat} {l : Regions}
    {k : Int × Int} (h1 : lookupKey k l = none) (h2 : fs k = .otherErr) :
    loadRegion fs now l k = (l, .error (.io .other)) := by
  unfold loadRegion
  rw [h1, h2]

theorem loadRegion_notFound_inv {fs : Int × Int → OpenResult} {now : Nat} {l : Regions}
    {k : Int × Int} {m2 : Regions}
    (h : loadRegion fs now l k = (m2, .error (.io .notFound))) :
    lookupKey k l = none ∧ fs k = .notFound := by
  unfold loadRegion at h
  cases hl : lookupKey k l with
  | some r => rw [hl] at h; simp at h
  | none =>
      cases hf : fs k with
      | notFound => exact ⟨rfl, rfl⟩
      | otherErr => rw [hl, hf] at h; simp at h
      | ok contents =>
          rw [hl, hf] at h
          repeat' split at h
          all_goals simp_all

theorem loadRegion_ne_ok_none (fs : Int × Int → OpenResult) (now : Nat) (l : Regions)
    (k : Int × Int) : (loadRegion fs now l k).2 ≠ .ok none := by
  unfold loadRegion
  cases hl : lookupKey k l with
  | some r => simp
  | none =>
      cases hf : fs k with
      | notFound => simp
      | otherErr => simp
      | ok contents =>
          by_cases hc : SECTOR_SIZE * 2 ≤ contents.length <;> simp [hc]

theorem read_chunk_data_ok_none_iff {Tree : Type} (cs : Codecs Tree) (reg : Region)
    (pos : Int × Int) :
    read_chunk_data cs reg pos = .ok none ↔
      readU32 (reg.header.drop (chunk_idx pos * 4)) = some 0
      ∧ (readU32 (reg.header.drop (chunk_idx pos * 4 + SECTOR_SIZE))).isSome := by
  constructor
  · intro h
    unfold read_chunk_data at h
    cases hloc : readU32 (reg.header.drop (chunk_idx pos * 4)) with
    | none => rw [hloc] at h; simp at h
    | some loc =>
        rw [hloc] at h
        cases hts : readU32 (reg.header.drop (chunk_idx pos * 4 + SECTOR_SIZE)) with
        | none => rw [hts] at h; simp at h
        | some ts =>
            rw [hts] at h
            by_cases h0 : loc = 0
            · subst h0
              exact ⟨rfl, rfl⟩
            · exfalso
              simp only [if_neg h0] at h
              repeat' split at h
              all_goals simp_all
  · rintro ⟨hz, hts⟩
    obtain ⟨ts, hts2⟩ := Option.isSome_iff_exists.mp hts
    unfold read_chunk_data
    rw [hz, hts2]
    simp

/-- C9: under any cache state (after the capacity step yields `m1` without a
panic), `read_chunk` returns the absent-chunk result `none` exactly when the
region file is missing (the open fails with the not-found kind) or the
location word at the chunk's index is 0; a non-not-found open failure is
propagated as an error. -/
theorem read_chunk_absent_iff {Tree : Type} (cs : Codecs Tree) (w : AnvilWorld)
    (fs : Int × Int → OpenResult) (now draw : Nat) (l m1 : Regions) (pos : Int × Int)
    (hcc : capacityCheck w now draw l = some m1) :
    ((∃ m', read_chunk cs w fs now draw l pos = some (m', .ok none)) ↔
      (lookupKey (chunk_pos_to_region pos) m1 = none
        ∧ fs (chunk_pos_to_region pos) = .notFound)
      ∨ (∃ m2 reg, loadRegion fs now m1 (chunk_pos_to_region pos) = (m2, .ok (some reg))
          ∧ readU32 (reg.header.drop (chunk_idx pos * 4)) = some 0
          ∧ (readU32 (reg.header.drop (chunk_idx pos * 4 + SECTOR_SIZE))).isSome))
    ∧ (lookupKey (chunk_pos_to_region pos) m1 = none →
        fs (chunk_pos_to_region pos) = .otherErr →
        read_chunk cs w fs now draw l pos = some (m1, .error (.io .other))) := by
  have hregion : region w fs now draw l (chunk_pos_to_region pos)
      = some (loadRegion fs now m1 (chunk_pos_to_region pos)) := by
    unfold region
    rw [hcc]
  refine ⟨⟨?_, ?_⟩, ?_⟩
  · rintro ⟨m', hm⟩
    unfold read_chunk at hm
    rw [hregion] at hm
    rcases hP : loadRegion fs now m1 (chunk_pos_to_region pos) with ⟨m2, res⟩
    rw [hP] at hm
    rcases res with ((_ | _ | _) | _ | _ | _ | b | _) | (_ | reg)
    · exact Or.inl (loadRegion_notFound_inv hP)
    · simp at hm
    · simp at hm
    · simp at hm
    · simp at hm
    · simp at hm
    · simp at hm
    · simp at hm
    · exact absurd
        (show (loadRegion fs now m1 (chunk_pos_to_region pos)).2 = .ok none by rw [hP])
        (loadRegion_ne_ok_none fs now m1 (chunk_pos_to_region pos))
    · simp only [Option.some.injEq, Prod.mk.injEq] at hm
      obtain ⟨hm1, hm2⟩ := hm
      obtain ⟨hz, hts⟩ := (read_chunk_data_ok_none_iff cs reg pos).mp hm2
      exact Or.inr ⟨m2, reg, rfl, hz, hts⟩
  · rintro (⟨hlk, hfs⟩ | ⟨m2, reg, hload, hz, hts⟩)
    · refine ⟨m1, ?_⟩
      have h2 : region w fs now draw l (chunk_pos_to_region pos)
          = some (m1, .error (.io .notFound)) := by
        rw [hregion, loadRegion_notFound hlk hfs]
      unfold read_chunk
      rw [h2]
    · refine ⟨m2, ?_⟩
      have h2 : region w fs now draw l (chunk_pos_to_region pos)
          = some (m2, .ok (some reg)) := by
        rw [hregion, hload]
      rw [read_chunk_region_some cs h2,
        (read_chunk_data_ok_none_iff cs reg pos).mpr ⟨hz, hts⟩]
  · intro hlk hfs
    have h2 : region w fs now draw l (chunk_pos_to_region pos)
        = some (m1, .error (.io .other)) := by
      rw [hregion, loadRegion_otherErr hlk hfs]
    unfold read_chunk
    rw [h2]

/-- Witness for C9: with an empty cache and a missing region file, the
absent-result characterization applies and `read_chunk` yields `none`. -/
theorem read_chunk_absent_iff_witness :
    capacityCheck ⟨1, 5⟩ 0 0 [] = some []
    ∧ (∃ m', read_chunk csUnit ⟨1, 5⟩ (fun _ => .notFound) 0 0 [] (0, 0)
        = some (m', .ok none)) :=
  ⟨rfl, (read_chunk_absent_iff csUnit ⟨1, 5⟩ (fun _ => .notFound) 0 0 [] [] (0, 0)
      rfl).1.mpr (Or.inl ⟨rfl, rfl⟩)⟩

/-! Forced eviction can hit the requested region itself. -/

theorem loadRegion_load {fs : Int × Int → OpenResult} {now : Nat} {l : Regions}
    {k : Int × Int} {contents : Bytes}
    (h1 : lookupKey k l = none) (h2 : fs k = .ok contents)
    (h3 : SECTOR_SIZE * 2 ≤ contents.length) :
    loadRegion fs now l k
      = (insertSorted k ⟨contents, now, contents.take (SECTOR_SIZE * 2)⟩ l,
          .ok (some ⟨contents, now, contents.take (SECTOR_SIZE * 2)⟩)) := by
  unfold loadRegion
  simp only [h1, h2]
  rw [if_pos h3]

/-- C10: a lookup for an already-cached region while the cache is at or above
capacity and every entry is within retention still runs the forced eviction,
whose candidate set includes the requested region: for some admissible draw
the requested region's handle is evicted, and the lookup then re-opens the
file and re-reads the 8192-byte header from disk — the returned handle holds
the on-disk header, not the previously cached one. -/
theorem eviction_includes_requested_region (w : AnvilWorld) (fs : Int × Int → OpenResult)
    (now : Nat) (l : Regions) (k : Int × Int) (r : Region) (contents : Bytes)
    (hfull : w.max_open_files ≤ l.length)
    (hactive : ∀ e ∈ l, now - e.2.last_use < w.region_retention)
    (hmem : lookupKey k l = some r)
    (hfs : fs k = .ok contents)
    (hlen : SECTOR_SIZE * 2 ≤ contents.length) :
    ∃ draw, draw < l.length ∧
      region w fs now draw l k
        = some (insertSorted k ⟨contents, now, contents.take (SECTOR_SIZE * 2)⟩
              (removeKey k l),
            .ok (some ⟨contents, now, contents.take (SECTOR_SIZE * 2)⟩))
      ∧ lookupKey k (insertSorted k ⟨contents, now, contents.take (SECTOR_SIZE * 2)⟩
            (removeKey k l))
          = some ⟨contents, now, contents.take (SECTOR_SIZE * 2)⟩ := by
  obtain ⟨i, e, hget, hk⟩ := lookupKey_get? hmem
  have hsweep : sweep now w.region_retention l = l := sweep_eq_self_of_active hactive
  have hi : i < l.length := by
    by_contra hge
    rw [List.get?_eq_none.mpr (Nat.le_of_not_lt hge)] at hget
    cases hget
  refine ⟨i, hi, ?_, lookupKey_insertSorted k _ (removeKey k l) (lookupKey_removeKey k l)⟩
  unfold region capacityCheck
  simp only [hsweep, if_pos hfull, hget]
  rw [hk, loadRegion_load (lookupKey_removeKey k l) hfs hlen]

/-- A cached handle carrying a stale header for region `(0, 0)`. -/
def staleRegion : Region := ⟨[], 0, [9]⟩

/-- Fresh on-disk contents of region `(0, 0)`. -/
def newContents : Bytes := List.replicate 8192 7

theorem newContents_length : newContents.length = 8192 :=
  List.length_replicate 8192 7

/-- Witness for C10: at `max_open_files = 1`, a lookup for the cached region
`(0, 0)` can evict that very handle and reload it from disk. -/
theorem eviction_includes_requested_region_witness :
    ∃ draw, draw < ([((0, 0), staleRegion)] : Regions).length ∧
      region ⟨1, 5⟩ (fun _ => .ok newContents) 0 draw [((0, 0), staleRegion)] (0, 0)
        = some (insertSorted (0, 0) ⟨newContents, 0, newContents.take (SECTOR_SIZE * 2)⟩
              (removeKey (0, 0) [((0, 0), staleRegion)]),
            .ok (some ⟨newContents, 0, newContents.take (SECTOR_SIZE * 2)⟩))
      ∧ lookupKey (0, 0)
            (insertSorted (0, 0) ⟨newContents, 0, newContents.take (SECTOR_SIZE * 2)⟩
              (removeKey (0, 0) [((0, 0), staleRegion)]))
          = some ⟨newContents, 0, newContents.take (SECTOR_SIZE * 2)⟩ :=
  eviction_includes_requested_region ⟨1, 5⟩ (fun _ => .ok newContents) 0
    [((0, 0), staleRegion)] (0, 0) staleRegion newContents
    (by norm_num)
    (by intro e he
        rcases List.mem_singleton.mp he with rfl
        norm_num [staleRegion])
    rfl rfl
    (by rw [newContents_length]; norm_num [SECTOR_SIZE])
